import Mathlib

/-!
Shallow embedding of the EveRes resource-allocation app (src/app.py).

Mongo collections become Lean lists kept in insertion order; the document
returned by find_one({"_id": i}) becomes List.find?; datetime instants
become integers (seconds); Python float arithmetic on hours is modelled
as exact rational arithmetic.  Subscripting the None returned by a failed
find_one raises an unhandled TypeError in Python; this fatal outcome is
the error value noneTypeError.  Route handlers that can write to the
database are modelled as functions from a State to Except AppError State,
so a returned error means the handler stopped before any insert.
-/

namespace EveRes

/-- An event document: title, start, end, description plus its Mongo id.
The field stop models the end instant (end is a Lean keyword). -/
structure Event where
  id : Nat
  title : String
  description : String
  start : Int
  stop : Int
  deriving Repr, DecidableEq

/-- A resource document: name and type plus its Mongo id (rtype models
the type field, type being a Lean keyword). -/
structure Resource where
  id : Nat
  name : String
  rtype : String
  deriving Repr, DecidableEq

/-- An allocation document: event_id and resource_id foreign keys. -/
structure Allocation where
  event_id : Nat
  resource_id : Nat
  deriving Repr, DecidableEq

/-- The database: the events, resources and allocations collections in
insertion order, plus a counter supplying fresh object ids. -/
structure State where
  events : List Event
  resources : List Resource
  allocations : List Allocation
  nextOid : Nat
  deriving Repr, DecidableEq

/-- Observable failure outcomes of the handlers: the Invalid time range
response, the Conflict: Resource already booked response, and the
unhandled TypeError raised by subscripting a missing find_one result. -/
inductive AppError where
  | invalidTimeRange
  | conflictBooked
  | noneTypeError
  deriving Repr, DecidableEq

/-- events_col.find_one({"_id": eid}): first event with the given id. -/
def findEvent (events : List Event) (eid : Nat) : Option Event :=
  events.find? (fun e => e.id == eid)

/-- POST branch of the /events route: reject when start >= end, else
insert the event (the title is not validated). -/
def events_post (s : State) (title desc : String) (start stop : Int) :
    Except AppError State :=
  if start ≥ stop then .error .invalidTimeRange
  else .ok { s with
    events := s.events ++ [⟨s.nextOid, title, desc, start, stop⟩],
    nextOid := s.nextOid + 1 }

/-- POST branch of the /resources route: insert the resource with no
validation at all. -/
def resources_post (s : State) (name rtype : String) : Except AppError State :=
  .ok { s with
    resources := s.resources ++ [⟨s.nextOid, name, rtype⟩],
    nextOid := s.nextOid + 1 }

/-- Loop body of has_conflict: walk the allocations of the resource in
order; fetch each allocation's event (subscripting None if it is missing);
return true on the first interval that overlaps [start, stop). -/
def hasConflictAux (events : List Event) (start stop : Int) :
    List Allocation → Except AppError Bool
  | [] => .ok false
  | a :: rest =>
    match findEvent events a.event_id with
    | none => .error .noneTypeError
    | some ev =>
      if ¬ (stop ≤ ev.start ∨ start ≥ ev.stop) then .ok true
      else hasConflictAux events start stop rest

/-- has_conflict(resource_id, start, end) from src/app.py. -/
def has_conflict (s : State) (rid : Nat) (start stop : Int) :
    Except AppError Bool :=
  hasConflictAux s.events start stop
    (s.allocations.filter (fun a => a.resource_id == rid))

/-- POST branch of the /allocate route: fetch the event (crash when the
id is unknown), run has_conflict with its interval, reject on conflict,
else insert the allocation.  The resource id is never looked up. -/
def allocate (s : State) (eid rid : Nat) : Except AppError State :=
  match findEvent s.events eid with
  | none => .error .noneTypeError
  | some ev =>
    match has_conflict s rid ev.start ev.stop with
    | .error e => .error e
    | .ok true => .error .conflictBooked
    | .ok false => .ok { s with allocations := s.allocations ++ [⟨ev.id, rid⟩] }

/-- (event.end - event.start).seconds / 3600 from the report loop: a
Python timedelta of t whole seconds has .seconds = t mod 86400 (the days
component is discarded), and the float division is modelled exactly. -/
def tdSecondsHours (start stop : Int) : ℚ :=
  (((stop - start) % 86400 : Int) : ℚ) / 3600

/-- Inner loop of the /report route for one resource: accumulate booked
hours over allocations whose event intersects the window, and the count
of allocations whose event starts after now. -/
def reportEntryAux (events : List Event) (wstart wstop now : Int) :
    List Allocation → ℚ → Nat → Except AppError (ℚ × Nat)
  | [], hours, upcoming => .ok (hours, upcoming)
  | a :: rest, hours, upcoming =>
    match findEvent events a.event_id with
    | none => .error .noneTypeError
    | some ev =>
      reportEntryAux events wstart wstop now rest
        (if ev.stop > wstart ∧ ev.start < wstop
          then hours + tdSecondsHours ev.start ev.stop else hours)
        (if ev.start > now then upcoming + 1 else upcoming)

/-- Outer loop of the /report route: one (name, hours, upcoming) row per
resource, in resource insertion order. -/
def reportRows (events : List Event) (allocations : List Allocation)
    (wstart wstop now : Int) : List Resource →
    Except AppError (List (String × ℚ × Nat))
  | [] => .ok []
  | r :: rest =>
    match reportEntryAux events wstart wstop now
        (allocations.filter (fun a => a.resource_id == r.id)) 0 0 with
    | .error e => .error e
    | .ok (hours, upcoming) =>
      match reportRows events allocations wstart wstop now rest with
      | .error e => .error e
      | .ok rows => .ok ((r.name, hours, upcoming) :: rows)

/-- POST branch of the /report route: a pure read that threads the state
through unchanged; now is the value of datetime.now() during the call. -/
def report (s : State) (wstart wstop now : Int) :
    Except AppError (State × List (String × ℚ × Nat)) :=
  match reportRows s.events s.allocations wstart wstop now s.resources with
  | .error e => .error e
  | .ok rows => .ok (s, rows)

/-- Strict overlap of two event intervals, as in the spec: s1 < e2 and
s2 < e1. -/
def EventsOverlap (e1 e2 : Event) : Prop :=
  e1.start < e2.stop ∧ e2.start < e1.stop

/-- No-overlap invariant: distinct allocations of one resource never
reference events with overlapping intervals. -/
def NoOverlapInv (s : State) : Prop :=
  s.allocations.Pairwise (fun a1 a2 => a1.resource_id = a2.resource_id →
    ∀ e1 e2, findEvent s.events a1.event_id = some e1 →
      findEvent s.events a2.event_id = some e2 → ¬ EventsOverlap e1 e2)

/-- Booked hours as the spec words them: sum, over the allocations whose
event intersects the window, of the event's full duration (end - start)
in fractional hours.  Written for comparison with the report loop. -/
def specRowHours (events : List Event) (wstart wstop : Int) :
    List Allocation → ℚ
  | [] => 0
  | a :: rest =>
    match findEvent events a.event_id with
    | none => specRowHours events wstart wstop rest
    | some ev =>
      (if ev.stop > wstart ∧ ev.start < wstop
        then ((ev.stop - ev.start : Int) : ℚ) / 3600 else 0) +
      specRowHours events wstart wstop rest

/-- Booked hours as the code computes them: like specRowHours but with
the duration truncated to whole seconds modulo 24 hours. -/
def rowHours (events : List Event) (wstart wstop : Int) :
    List Allocation → ℚ
  | [] => 0
  | a :: rest =>
    match findEvent events a.event_id with
    | none => rowHours events wstart wstop rest
    | some ev =>
      (if ev.stop > wstart ∧ ev.start < wstop
        then tdSecondsHours ev.start ev.stop else 0) +
      rowHours events wstart wstop rest

/-- Upcoming count: allocations whose event starts strictly after now. -/
def rowUpcoming (events : List Event) (now : Int) : List Allocation → Nat
  | [] => 0
  | a :: rest =>
    match findEvent events a.event_id with
    | none => rowUpcoming events now rest
    | some ev => (if ev.start > now then 1 else 0) + rowUpcoming events now rest

/-- The conflict scan answers false exactly when every allocation in the
list resolves to an event whose interval misses [a, b). -/
theorem hasConflictAux_ok_false_iff (events : List Event) (a b : Int)
    (l : List Allocation) :
    hasConflictAux events a b l = .ok false ↔
      ∀ al ∈ l, ∃ e, findEvent events al.event_id = some e ∧
        (b ≤ e.start ∨ a ≥ e.stop) := by
  induction l with
  | nil => simp [hasConflictAux]
  | cons al rest ih =>
    simp only [hasConflictAux]
    cases h : findEvent events al.event_id with
    | none => simp [h]
    | some e =>
      by_cases hc : b ≤ e.start ∨ a ≥ e.stop
      · simp [h, hc, ih]
      · simp [h, hc]

/-- With every referenced event present, the conflict scan answers true
exactly when some allocation's event interval meets [a, b). -/
theorem hasConflictAux_ok_true_iff (events : List Event) (a b : Int)
    (l : List Allocation)
    (htot : ∀ al ∈ l, ∃ e, findEvent events al.event_id = some e) :
    hasConflictAux events a b l = .ok true ↔
      ∃ al ∈ l, ∃ e, findEvent events al.event_id = some e ∧
        a < e.stop ∧ e.start < b := by
  induction l with
  | nil => simp [hasConflictAux]
  | cons al rest ih =>
    obtain ⟨e, he⟩ := htot al (List.mem_cons_self al rest)
    have htot2 : ∀ a2 ∈ rest, ∃ e2, findEvent events a2.event_id = some e2 :=
      fun a2 ha2 => htot a2 (List.mem_cons_of_mem al ha2)
    simp only [hasConflictAux, he]
    by_cases hc : b ≤ e.start ∨ a ≥ e.stop
    · have : ¬ (a < e.stop ∧ e.start < b) := by omega
      simp [hc, ih htot2, he, this]
    · have : a < e.stop ∧ e.start < b := by omega
      simp [hc, he, this]

/-- When no allocation's event interval meets [a, b) and some allocation
references a missing event, the conflict scan stops with the fatal
error. -/
theorem hasConflictAux_error_of_missing (events : List Event) (a b : Int)
    (l : List Allocation)
    (hno : ∀ al ∈ l, ∀ e, findEvent events al.event_id = some e →
      (b ≤ e.start ∨ a ≥ e.stop))
    (hmiss : ∃ al ∈ l, findEvent events al.event_id = none) :
    hasConflictAux events a b l = .error .noneTypeError := by
  induction l with
  | nil => simp at hmiss
  | cons al rest ih =>
    simp only [hasConflictAux]
    cases h : findEvent events al.event_id with
    | none => rfl
    | some e =>
      have hc : b ≤ e.start ∨ a ≥ e.stop :=
        hno al (List.mem_cons_self al rest) e h
      have hrest : hasConflictAux events a b rest = .error .noneTypeError := by
        apply ih
        · exact fun a2 ha2 => hno a2 (List.mem_cons_of_mem al ha2)
        · obtain ⟨al2, hm, hnone⟩ := hmiss
          rcases List.mem_cons.mp hm with rfl | hm2
          · rw [h] at hnone; cases hnone
          · exact ⟨al2, hm2, hnone⟩
      simp [hc, hrest]

/-- The inner report loop, when every referenced event exists, returns
the accumulators advanced by rowHours and rowUpcoming. -/
theorem reportEntryAux_eq (events : List Event) (w1 w2 n : Int)
    (l : List Allocation)
    (htot : ∀ al ∈ l, ∃ e, findEvent events al.event_id = some e)
    (h : ℚ) (u : Nat) :
    reportEntryAux events w1 w2 n l h u =
      .ok (h + rowHours events w1 w2 l, u + rowUpcoming events n l) := by
  induction l generalizing h u with
  | nil => simp [reportEntryAux, rowHours, rowUpcoming]
  | cons al rest ih =>
    obtain ⟨e, he⟩ := htot al (List.mem_cons_self al rest)
    have htot2 : ∀ a2 ∈ rest, ∃ e2, findEvent events a2.event_id = some e2 :=
      fun a2 ha2 => htot a2 (List.mem_cons_of_mem al ha2)
    simp only [reportEntryAux, rowHours, rowUpcoming, he]
    rw [ih htot2]
    refine congrArg Except.ok (Prod.ext ?_ ?_)
    · by_cases hin : e.stop > w1 ∧ e.start < w2
      · simp [hin]; ring
      · simp [hin]
    · by_cases hup : e.start > n
      · simp [hup]; omega
      · simp [hup]

/-- The outer report loop, when every referenced event exists, maps each
resource to its (name, hours, upcoming) row. -/
theorem reportRows_eq (events : List Event) (allocations : List Allocation)
    (w1 w2 n : Int) (rs : List Resource)
    (htot : ∀ al ∈ allocations, ∃ e, findEvent events al.event_id = some e) :
    reportRows events allocations w1 w2 n rs = .ok (rs.map fun r =>
      (r.name,
       rowHours events w1 w2
         (allocations.filter (fun a => a.resource_id == r.id)),
       rowUpcoming events n
         (allocations.filter (fun a => a.resource_id == r.id)))) := by
  induction rs with
  | nil => rfl
  | cons r rest ih =>
    have htotf : ∀ al ∈ allocations.filter (fun a => a.resource_id == r.id),
        ∃ e, findEvent events al.event_id = some e :=
      fun al hal => htot al (List.mem_filter.mp hal).1
    simp only [reportRows, List.map_cons]
    rw [reportEntryAux_eq events w1 w2 n _ htotf 0 0, ih]
    simp

/-- A found event carries the id it was looked up by. -/
theorem findEvent_id (events : List Event) (eid : Nat) (ev : Event)
    (h : findEvent events eid = some ev) : ev.id = eid := by
  unfold findEvent at h
  simpa using List.find?_some h

/-- Looking an event up again by its own id finds it again. -/
theorem findEvent_self (events : List Event) (eid : Nat) (ev : Event)
    (h : findEvent events eid = some ev) : findEvent events ev.id = some ev := by
  rw [findEvent_id events eid ev h]
  exact h

/-- Claim C1: starting from a store in which, for every resource, the
intervals of the events referenced by that resource's allocations are
pairwise non-overlapping, every successful allocate preserves this. -/
theorem allocate_preserves_no_overlap_inv (s t : State) (eid rid : Nat)
    (hinv : NoOverlapInv s) (h : allocate s eid rid = .ok t) :
    NoOverlapInv t := by
  unfold allocate at h
  split at h
  · exact Except.noConfusion h
  next ev hf =>
    split at h
    · exact Except.noConfusion h
    · exact Except.noConfusion h
    next hc =>
      · injection h with h
        subst h
        unfold NoOverlapInv
        refine List.pairwise_append.mpr ⟨hinv, ?_, ?_⟩
        · refine List.Pairwise.cons ?_ List.Pairwise.nil
          intro b hb
          cases hb
        · intro a ha x hx
          rcases List.mem_singleton.mp hx with rfl
          intro hres e1 e2 he1 he2
          have he2a : findEvent s.events ev.id = some e2 := he2
          have he2ev : e2 = ev := by
            rw [findEvent_self s.events eid ev hf] at he2a
            exact (Option.some.inj he2a).symm
          have hmem : a ∈ s.allocations.filter (fun al => al.resource_id == rid) :=
            List.mem_filter.mpr ⟨ha, by simp [hres]⟩
          unfold has_conflict at hc
          obtain ⟨e, hfe, hdisj⟩ :=
            (hasConflictAux_ok_false_iff s.events ev.start ev.stop _).mp hc a hmem
          have he1a : findEvent s.events a.event_id = some e1 := he1
          have he1e : e1 = e := by
            rw [hfe] at he1a
            exact (Option.some.inj he1a).symm
          intro hov
          unfold EventsOverlap at hov
          subst he2ev
          subst he1e
          omega

def exC1 : State := ⟨[⟨1, "A", "d", 0, 10⟩], [⟨0, "R", "room"⟩], [], 2⟩

theorem allocate_preserves_no_overlap_inv_witness :
    NoOverlapInv ⟨[⟨1, "A", "d", 0, 10⟩], [⟨0, "R", "room"⟩], [⟨1, 0⟩], 2⟩ :=
  allocate_preserves_no_overlap_inv exC1
    ⟨[⟨1, "A", "d", 0, 10⟩], [⟨0, "R", "room"⟩], [⟨1, 0⟩], 2⟩ 1 0
    List.Pairwise.nil rfl

/-- Totality of event lookup transfers from a resource's allocations to
the filtered allocation list that has_conflict scans. -/
theorem filter_totality (s : State) (rid : Nat)
    (htot : ∀ a ∈ s.allocations, a.resource_id = rid →
      ∃ e, findEvent s.events a.event_id = some e) :
    ∀ a ∈ s.allocations.filter (fun x => x.resource_id == rid),
      ∃ e, findEvent s.events a.event_id = some e := by
  intro a ha
  have hmf := List.mem_filter.mp ha
  exact htot a hmf.1 (by simpa using hmf.2)

/-- Shared helper: an existing allocation of the resource whose event
overlaps the candidate interval makes allocate stop with the conflict
rejection before any insert. -/
theorem allocate_error_conflict (s : State) (eid rid : Nat)
    (ev e2 : Event) (al : Allocation)
    (hf : findEvent s.events eid = some ev)
    (hm : al ∈ s.allocations) (hres : al.resource_id = rid)
    (hf2 : findEvent s.events al.event_id = some e2)
    (ho1 : ev.start < e2.stop) (ho2 : e2.start < ev.stop)
    (htot : ∀ a ∈ s.allocations, a.resource_id = rid →
      ∃ e, findEvent s.events a.event_id = some e) :
    allocate s eid rid = .error .conflictBooked := by
  have hct : has_conflict s rid ev.start ev.stop = .ok true := by
    unfold has_conflict
    rw [hasConflictAux_ok_true_iff s.events ev.start ev.stop _
      (filter_totality s rid htot)]
    exact ⟨al, List.mem_filter.mpr ⟨hm, by simp [hres]⟩, e2, hf2, ho1, ho2⟩
  simp only [allocate, hf, hct]

/-- Claim C2: with every referenced event of the resource present,
has_conflict answers true iff some existing allocation of that resource
references an event whose interval [s, e) satisfies start < e and
s < end; and the touching intervals [600, 660) and [660, 720) both
allocate successfully on the same resource. -/
theorem has_conflict_iff_and_touching_allowed :
    (∀ (s : State) (rid : Nat) (a b : Int),
      (∀ al ∈ s.allocations, al.resource_id = rid →
        ∃ e, findEvent s.events al.event_id = some e) →
      (has_conflict s rid a b = .ok true ↔
        ∃ al ∈ s.allocations, al.resource_id = rid ∧
          ∃ e, findEvent s.events al.event_id = some e ∧
            a < e.stop ∧ e.start < b)) ∧
    (allocate ⟨[⟨1, "A", "", 600, 660⟩, ⟨2, "B", "", 660, 720⟩],
        [⟨0, "R", "room"⟩], [], 3⟩ 1 0 =
      .ok ⟨[⟨1, "A", "", 600, 660⟩, ⟨2, "B", "", 660, 720⟩],
        [⟨0, "R", "room"⟩], [⟨1, 0⟩], 3⟩ ∧
      allocate ⟨[⟨1, "A", "", 600, 660⟩, ⟨2, "B", "", 660, 720⟩],
        [⟨0, "R", "room"⟩], [⟨1, 0⟩], 3⟩ 2 0 =
      .ok ⟨[⟨1, "A", "", 600, 660⟩, ⟨2, "B", "", 660, 720⟩],
        [⟨0, "R", "room"⟩], [⟨1, 0⟩, ⟨2, 0⟩], 3⟩) := by
  refine ⟨?_, rfl, rfl⟩
  intro s rid a b htot
  unfold has_conflict
  rw [hasConflictAux_ok_true_iff s.events a b _ (filter_totality s rid htot)]
  constructor
  · rintro ⟨al, hal, e, hfe, h1, h2⟩
    have hmf := List.mem_filter.mp hal
    exact ⟨al, hmf.1, by simpa using hmf.2, e, hfe, h1, h2⟩
  · rintro ⟨al, hal, hres, e, hfe, h1, h2⟩
    exact ⟨al, List.mem_filter.mpr ⟨hal, by simp [hres]⟩, e, hfe, h1, h2⟩

def exC2 : State := ⟨[⟨1, "A", "", 0, 10⟩], [⟨0, "R", "room"⟩], [⟨1, 0⟩], 2⟩

theorem has_conflict_iff_and_touching_allowed_witness :
    has_conflict exC2 0 5 15 = .ok true := by
  refine (has_conflict_iff_and_touching_allowed.1 exC2 0 5 15 ?_).mpr ?_
  · intro al hal hres
    have hal2 : al = ⟨1, 0⟩ := by simpa [exC2] using hal
    subst hal2
    exact ⟨⟨1, "A", "", 0, 10⟩, rfl⟩
  · exact ⟨⟨1, 0⟩, by simp [exC2], rfl,
      ⟨1, "A", "", 0, 10⟩, rfl, by decide, by decide⟩

/-- Claim C3: if an existing allocation of resource rid references the
event e2 and e2's interval overlaps the candidate event's interval, then
allocate fails with the conflict rejection; the error return means the
insert never runs, so the allocations collection is unchanged.  The
resource's allocations are assumed to reference existing events, since a
missing one would crash the scan instead. -/
theorem allocate_rejects_overlap_with_conflict (s : State) (eid rid : Nat)
    (ev e2 : Event) (al : Allocation)
    (hf : findEvent s.events eid = some ev)
    (hm : al ∈ s.allocations) (hres : al.resource_id = rid)
    (hf2 : findEvent s.events al.event_id = some e2)
    (ho1 : ev.start < e2.stop) (ho2 : e2.start < ev.stop)
    (htot : ∀ a ∈ s.allocations, a.resource_id = rid →
      ∃ e, findEvent s.events a.event_id = some e) :
    allocate s eid rid = .error .conflictBooked :=
  allocate_error_conflict s eid rid ev e2 al hf hm hres hf2 ho1 ho2 htot

def exC3 : State := ⟨[⟨1, "A", "", 0, 10⟩, ⟨2, "B", "", 5, 15⟩],
  [⟨0, "R", "room"⟩], [⟨1, 0⟩], 3⟩

theorem allocate_rejects_overlap_with_conflict_witness :
    allocate exC3 2 0 = .error .conflictBooked := by
  refine allocate_rejects_overlap_with_conflict exC3 2 0
    ⟨2, "B", "", 5, 15⟩ ⟨1, "A", "", 0, 10⟩ ⟨1, 0⟩
    rfl (by simp [exC3]) rfl rfl (by decide) (by decide) ?_
  intro a ha hres
  have ha2 : a = ⟨1, 0⟩ := by simpa [exC3] using ha
  subst ha2
  exact ⟨⟨1, "A", "", 0, 10⟩, rfl⟩

/-- Claim C10: an event with a non-empty interval that is already
allocated to a resource is rejected as a conflict when allocated to the
same resource again, because the interval overlaps itself; so allocate
never creates a second binding of the same event to the same resource.
The resource's allocations are assumed to reference existing events. -/
theorem allocate_rejects_duplicate_binding (s : State) (eid rid : Nat)
    (ev : Event) (al : Allocation)
    (hf : findEvent s.events eid = some ev) (hlt : ev.start < ev.stop)
    (hm : al ∈ s.allocations) (hres : al.resource_id = rid)
    (hev : al.event_id = eid)
    (htot : ∀ a ∈ s.allocations, a.resource_id = rid →
      ∃ e, findEvent s.events a.event_id = some e) :
    allocate s eid rid = .error .conflictBooked := by
  have hf2 : findEvent s.events al.event_id = some ev := by
    rw [hev]
    exact hf
  exact allocate_error_conflict s eid rid ev ev al hf hm hres hf2 hlt hlt htot

def exC10 : State := ⟨[⟨1, "E", "", 0, 10⟩], [⟨0, "R", "room"⟩], [⟨1, 0⟩], 2⟩

theorem allocate_rejects_duplicate_binding_witness :
    allocate exC10 1 0 = .error .conflictBooked := by
  refine allocate_rejects_duplicate_binding exC10 1 0
    ⟨1, "E", "", 0, 10⟩ ⟨1, 0⟩ rfl (by decide) (by simp [exC10]) rfl rfl ?_
  intro a ha hres
  have ha2 : a = ⟨1, 0⟩ := by simpa [exC10] using ha
  subst ha2
  exact ⟨⟨1, "E", "", 0, 10⟩, rfl⟩

/-- Claim C9: when an existing allocation of the resource references a
missing event id, has_conflict fails rather than silently skipping it:
it can never answer false, and when no other allocation trips the
overlap short-circuit first it stops with the fatal noneTypeError (the
unhandled exception the source raises on the corrupt record). -/
theorem has_conflict_missing_event_fatal :
    (∀ (s : State) (rid : Nat) (a b : Int) (al : Allocation),
      al ∈ s.allocations → al.resource_id = rid →
      findEvent s.events al.event_id = none →
      has_conflict s rid a b ≠ .ok false) ∧
    (∀ (s : State) (rid : Nat) (a b : Int),
      (∃ al ∈ s.allocations, al.resource_id = rid ∧
        findEvent s.events al.event_id = none) →
      (∀ al ∈ s.allocations, al.resource_id = rid →
        ∀ e, findEvent s.events al.event_id = some e →
          (b ≤ e.start ∨ a ≥ e.stop)) →
      has_conflict s rid a b = .error .noneTypeError) := by
  constructor
  · intro s rid a b al hm hres hnone hcf
    unfold has_conflict at hcf
    obtain ⟨e, hfe, -⟩ := (hasConflictAux_ok_false_iff s.events a b _).mp hcf al
      (List.mem_filter.mpr ⟨hm, by simp [hres]⟩)
    rw [hnone] at hfe
    cases hfe
  · intro s rid a b hmiss hno
    unfold has_conflict
    apply hasConflictAux_error_of_missing
    · intro al hal e hfe
      have hmf := List.mem_filter.mp hal
      exact hno al hmf.1 (by simpa using hmf.2) e hfe
    · obtain ⟨al, hm, hres, hnone⟩ := hmiss
      exact ⟨al, List.mem_filter.mpr ⟨hm, by simp [hres]⟩, hnone⟩

def exC9 : State := ⟨[], [⟨0, "R", "room"⟩], [⟨7, 0⟩], 1⟩

theorem has_conflict_missing_event_fatal_witness :
    has_conflict exC9 0 0 10 ≠ .ok false ∧
    has_conflict exC9 0 0 10 = .error .noneTypeError :=
  ⟨has_conflict_missing_event_fatal.1 exC9 0 0 10 ⟨7, 0⟩
      (by simp [exC9]) rfl rfl,
   has_conflict_missing_event_fatal.2 exC9 0 0 10
     ⟨⟨7, 0⟩, by simp [exC9], rfl, rfl⟩
     (fun al hal hres e hfe => Option.noConfusion hfe)⟩

def exC4 : State := ⟨[⟨1, "A", "", 0, 90000⟩], [⟨0, "R", "room"⟩], [⟨1, 0⟩], 2⟩

/-- Claim C4 counterexample: the 25-hour event [0, 90000) fully meets
the window, so the claimed bookedHours is its full duration 25, but the
code's timedelta .seconds drops whole days and reports
(90000 mod 86400) / 3600 = 1 hour instead. -/
theorem report_hours_truncated_counterexample :
    report exC4 0 100000 (-1) = .ok (exC4, [("R", 1, 1)]) ∧
    specRowHours exC4.events 0 100000 exC4.allocations = 25 ∧
    ((1 : ℚ)) ≠ 25 := by
  refine ⟨?_, ?_, by norm_num⟩
  · norm_num [report, reportRows, reportEntryAux, tdSecondsHours, findEvent,
      exC4]
  · norm_num [specRowHours, findEvent, exC4]

/-- Claim C4 amended: bookedHours for every resource and window is the
sum, over that resource's allocations whose event meets the window
(event.end > windowStart and event.start < windowEnd), of the event
duration truncated to whole seconds modulo 24 hours and divided by 3600
(timedelta .seconds semantics), not of the full duration; referenced
events are assumed present, a missing one crashing the report instead. -/
theorem report_rows_eq_amended_hours (s : State) (w1 w2 now : Int)
    (htot : ∀ al ∈ s.allocations, ∃ e, findEvent s.events al.event_id = some e) :
    report s w1 w2 now = .ok (s, s.resources.map fun r =>
      (r.name,
       rowHours s.events w1 w2
         (s.allocations.filter (fun a => a.resource_id == r.id)),
       rowUpcoming s.events now
         (s.allocations.filter (fun a => a.resource_id == r.id)))) := by
  unfold report
  rw [reportRows_eq s.events s.allocations w1 w2 now s.resources htot]

def exC4w : State := ⟨[⟨1, "A", "", 0, 3600⟩], [⟨0, "R", "room"⟩], [⟨1, 0⟩], 2⟩

theorem report_rows_eq_amended_hours_witness :
    report exC4w 0 10000 (-1) = .ok (exC4w, exC4w.resources.map fun r =>
      (r.name,
       rowHours exC4w.events 0 10000
         (exC4w.allocations.filter (fun a => a.resource_id == r.id)),
       rowUpcoming exC4w.events (-1)
         (exC4w.allocations.filter (fun a => a.resource_id == r.id)))) := by
  refine report_rows_eq_amended_hours exC4w 0 10000 (-1) ?_
  intro al hal
  have hal2 : al = ⟨1, 0⟩ := by simpa [exC4w] using hal
  subst hal2
  exact ⟨⟨1, "A", "", 0, 3600⟩, rfl⟩

/-- Claim C5 counterexample: an event with an empty title but a valid
time range is created (the title is never validated), where the claim
requires a ValidationError and no event. -/
theorem events_post_empty_title_created :
    events_post ⟨[], [], [], 0⟩ ("") ("d") 0 10 =
      .ok ⟨[⟨0, "", "d", 0, 10⟩], [], [], 1⟩ := rfl

/-- Claim C5 amended: event creation fails (the invalid-time-range
response, the code's ValidationError) exactly when start >= end; the
title is not validated, so whenever start < end the event is created,
empty title included. -/
theorem events_post_validation_amended (s : State) (title desc : String)
    (a b : Int) :
    (a ≥ b → events_post s title desc a b = .error .invalidTimeRange) ∧
    (a < b → events_post s title desc a b = .ok { s with
      events := s.events ++ [⟨s.nextOid, title, desc, a, b⟩],
      nextOid := s.nextOid + 1 }) := by
  constructor
  · intro h
    unfold events_post
    rw [if_pos h]
  · intro h
    unfold events_post
    rw [if_neg (not_le.mpr h)]

theorem events_post_validation_amended_witness :
    events_post ⟨[], [], [], 0⟩ ("t") ("d") 5 5 = .error .invalidTimeRange ∧
    events_post ⟨[], [], [], 0⟩ ("t") ("d") 0 10 =
      .ok ⟨[⟨0, "t", "d", 0, 10⟩], [], [], 1⟩ :=
  ⟨(events_post_validation_amended ⟨[], [], [], 0⟩ ("t") ("d") 5 5).1
      (by decide),
   (events_post_validation_amended ⟨[], [], [], 0⟩ ("t") ("d") 0 10).2
      (by decide)⟩

def exC6 : State := ⟨[⟨1, "E", "", 0, 10⟩], [], [], 2⟩

/-- Claim C6 counterexample: the store holds no resources at all, yet
allocate for the unknown resource id 99 succeeds and creates an
allocation referencing the missing resource — the resource id is never
looked up, so no NotFound is possible for it. -/
theorem allocate_missing_resource_succeeds :
    exC6.resources = [] ∧
    allocate exC6 1 99 = .ok ⟨[⟨1, "E", "", 0, 10⟩], [], [⟨1, 99⟩], 2⟩ :=
  ⟨rfl, rfl⟩

/-- Claim C6 amended: a missing event id makes allocate fail with the
fatal noneTypeError (the unhandled exception raised when subscripting
the failed lookup, not a NotFound) and no allocation is created; the
resource id is never checked, so absent a conflict the allocation is
created even when the resource id does not exist. -/
theorem allocate_missing_reference_amended (s : State) (eid rid : Nat) :
    (findEvent s.events eid = none →
      allocate s eid rid = .error .noneTypeError) ∧
    (∀ ev, findEvent s.events eid = some ev →
      has_conflict s rid ev.start ev.stop = .ok false →
      allocate s eid rid = .ok { s with
        allocations := s.allocations ++ [⟨ev.id, rid⟩] }) := by
  constructor
  · intro h
    simp only [allocate, h]
  · intro ev hf hc
    simp only [allocate, hf, hc]

theorem allocate_missing_reference_amended_witness :
    allocate exC6 5 0 = .error .noneTypeError ∧
    allocate exC6 1 99 = .ok ⟨[⟨1, "E", "", 0, 10⟩], [], [⟨1, 99⟩], 2⟩ :=
  ⟨(allocate_missing_reference_amended exC6 5 0).1 rfl,
   (allocate_missing_reference_amended exC6 1 99).2
      ⟨1, "E", "", 0, 10⟩ rfl rfl⟩

def exC7 : State := ⟨[⟨1, "E", "", 100, 3700⟩], [⟨0, "R", "room"⟩], [⟨1, 0⟩], 2⟩

/-- Claim C7 counterexample: with the store unchanged and no intervening
allocations, two report calls disagree, because upcomingCount compares
event starts against the wall clock at call time: at now = 50 the event
is upcoming, at now = 150 it no longer is. -/
theorem report_upcoming_depends_on_now :
    report exC7 0 10000 50 = .ok (exC7, [("R", 1, 1)]) ∧
    report exC7 0 10000 150 = .ok (exC7, [("R", 1, 0)]) ∧
    (("R", (1 : ℚ), 1) : String × ℚ × Nat) ≠ ("R", 1, 0) := by
  refine ⟨?_, ?_, by simp [Prod.ext_iff]⟩
  · norm_num [report, reportRows, reportEntryAux, tdSecondsHours, findEvent,
      exC7]
  · norm_num [report, reportRows, reportEntryAux, tdSecondsHours, findEvent,
      exC7]

/-- Claim C7 amended: report mutates no state (the store it returns is
the one it was given) and a repeated call on that store at the same
current instant returns the identical output; at different instants the
upcomingCount components may differ. -/
theorem report_pure_idempotent_fixed_now (s : State) (w1 w2 now : Int)
    (p : State × List (String × ℚ × Nat))
    (h : report s w1 w2 now = .ok p) :
    p.1 = s ∧ report p.1 w1 w2 now = .ok p := by
  unfold report at h
  cases hr : reportRows s.events s.allocations w1 w2 now s.resources with
  | error e => rw [hr] at h; exact Except.noConfusion h
  | ok rows =>
    rw [hr] at h
    injection h with h
    subst h
    refine ⟨rfl, ?_⟩
    show report s w1 w2 now = .ok (s, rows)
    unfold report
    rw [hr]

theorem report_pure_idempotent_fixed_now_witness :
    ((exC7, [(("R" : String), (1 : ℚ), (1 : Nat))]).1 = exC7 ∧
      report (exC7, [(("R" : String), (1 : ℚ), (1 : Nat))]).1 0 10000 50 =
        .ok (exC7, [("R", 1, 1)])) :=
  report_pure_idempotent_fixed_now exC7 0 10000 50 (exC7, [("R", 1, 1)])
    (by norm_num [report, reportRows, reportEntryAux, tdSecondsHours,
      findEvent, exC7])

/-- Claim C8 counterexample: a resource with an empty name is created
(no validation exists in the handler), where the claim requires a
ValidationError and no resource. -/
theorem resources_post_empty_name_created :
    resources_post ⟨[], [], [], 0⟩ ("") ("room") =
      .ok ⟨[], [⟨0, "", "room"⟩], [], 1⟩ := rfl

/-- Claim C8 amended: resource registration performs no validation at
all: for every name, empty included, it succeeds and appends the
resource. -/
theorem resources_post_no_validation (s : State) (name rtype : String) :
    resources_post s name rtype = .ok { s with
      resources := s.resources ++ [⟨s.nextOid, name, rtype⟩],
      nextOid := s.nextOid + 1 } := rfl

end EveRes
